import Mathlib

/-!
Verification of the PDF transformation pipeline (pdfService module).

The source module exposes four operations on in-memory PDF documents:
`imagesToPdf`, `mergePdfs`, `splitPdf` and `compressPdf`.  This file gives a
shallow embedding of those operations and proves the specified properties.

Modelling conventions:
- a loaded `Document` is a `List` of abstract pages (page identity is the list
  element; order is document page order);
- a file on disk is `Option (List α)`: `some pages` is a loadable PDF with
  those pages, `none` a buffer the loader rejects (`MalformedDocumentError`);
- JavaScript strings are `String`, but the JS primitives `split`, `trim`,
  `includes` and `parseInt` are re-implemented on `List Char` so that they
  evaluate inside the kernel (`String.data` converts at the boundary);
- JS `Set<number>` iteration order is insertion order, so the set is a
  duplicate-free `List Int` grown by `setAdd`; `Array.from(set).sort((a,b)=>a-b)`
  is `List.insertionSort (· ≤ ·)`;
- page dimensions and the JPEG quality parameter are rationals (`ℚ`);
- `compressPdf` additionally returns the trace of observable events of its
  page loop, so that the progress-callback protocol can be stated.
-/

/-! ## JS string primitives -/

/-- Value of a hexadecimal digit character (0 for non-digits; only applied to
hex digits). -/
def hexDigitVal (c : Char) : Nat :=
  if c.isDigit then c.toNat - '0'.toNat
  else if 'a' ≤ c ∧ c ≤ 'f' then c.toNat - 'a'.toNat + 10
  else if 'A' ≤ c ∧ c ≤ 'F' then c.toNat - 'A'.toNat + 10
  else 0

/-- Hexadecimal digit recognizer, as JS `parseInt` accepts after `0x`. -/
def isHexDigitChar (c : Char) : Bool :=
  c.isDigit || ('a' ≤ c && c ≤ 'f') || ('A' ≤ c && c ≤ 'F')

/-- Numeric value of a digit string in the given base. -/
def digitsVal (base : Nat) (ds : List Char) : Nat :=
  ds.foldl (fun acc c => acc * base + hexDigitVal c) 0

/-- JavaScript `parseInt(s)` (radix inferred): optional sign, then the longest
prefix of digits (hex after `0x`/`0X`); `none` models `NaN` when no digit
follows.  Leading whitespace is irrelevant here because every call site trims
first. -/
def parseIntJS (cs : List Char) : Option Int :=
  let sign : Int := match cs with
    | '-' :: _ => -1
    | _ => 1
  let body : List Char := match cs with
    | '-' :: t => t
    | '+' :: t => t
    | t => t
  let (base, digits) : Nat × List Char := match body with
    | '0' :: 'x' :: t => (16, t.takeWhile isHexDigitChar)
    | '0' :: 'X' :: t => (16, t.takeWhile isHexDigitChar)
    | t => (10, t.takeWhile Char.isDigit)
  if digits.isEmpty then none
  else some (sign * (digitsVal base digits : Int))

/-- JavaScript `str.split(sep)` for a one-character separator: splits at every
occurrence; the empty string yields `[""]`. -/
def jsSplit (sep : Char) : List Char → List (List Char)
  | [] => [[]]
  | c :: rest =>
    let r := jsSplit sep rest
    if c = sep then [] :: r
    else
      match r with
      | [] => [[c]]
      | h :: t => (c :: h) :: t

/-- JavaScript `str.trim()`: strip whitespace from both ends. -/
def jsTrim (cs : List Char) : List Char :=
  ((cs.dropWhile Char.isWhitespace).reverse.dropWhile Char.isWhitespace).reverse

/-! ## Page-range parsing (the inline parser of `splitPdf`, called
`parseRanges` by the specification) -/

/-- JS `Set<number>.add`: insertion-ordered, duplicate-free. -/
def setAdd (s : List Int) (x : Int) : List Int :=
  if x ∈ s then s else s ++ [x]

/-- The loop `for (let i = start; i <= end; i++) if (i >= 1 && i <= totalPages)
pagesToKeep.add(i - 1)`, with the remaining iteration count made explicit. -/
def rangeLoop (tp : Int) : List Int → Int → Nat → List Int
  | s, _, 0 => s
  | s, i, n + 1 => rangeLoop tp (if 1 ≤ i ∧ i ≤ tp then setAdd s (i - 1) else s) (i + 1) n

/-- Effect of one `start-end` range term: the loop above runs
`max 0 (e - start + 1)` times beginning at `start`. -/
def addRange (tp : Int) (s : List Int) (start e : Int) : List Int :=
  rangeLoop tp s start (e - start + 1).toNat

/-- Effect of one comma-separated term of the range expression on the
accumulated page set: a term containing `-` is split at `-`, its first two
components parsed (`NaN` on either side drops the term); otherwise the term is
parsed as a single 1-based page number, kept only when within
`[1, totalPages]`. -/
def processPart (tp : Int) (s : List Int) (part : List Char) : List Int :=
  if part.contains '-' then
    match (jsSplit '-' part).map (fun t => parseIntJS (jsTrim t)) with
    | some start :: some e :: _ => addRange tp s start e
    | _ => s
  else
    match parseIntJS (jsTrim part) with
    | some n => if 1 ≤ n ∧ n ≤ tp then setAdd s (n - 1) else s
    | none => s

/-- Range-expression resolution of `splitPdf` (lines 96–115 of the source):
split the expression at commas, fold every term into a `Set<number>`, then
`Array.from(set).sort((a, b) => a - b)`. -/
def parseRanges (rangeStr : String) (totalPages : Int) : List Int :=
  let pagesToKeep := (jsSplit ',' rangeStr.data).foldl (processPart totalPages) []
  List.insertionSort (· ≤ ·) pagesToKeep

/-! ## Documents, loading, the four operations -/

/-- Error kinds of the pipeline that the claims mention. -/
inductive PdfError
  | malformedDocument
  | invalidRange
  deriving DecidableEq

/-- PDFDocument.load: a loadable file yields its pages, anything else raises
`MalformedDocumentError`. -/
def loadDocument {α : Type} (file : Option (List α)) : Except PdfError (List α) :=
  match file with
  | some pages => Except.ok pages
  | none => Except.error PdfError.malformedDocument

/-- splitPdf: load the source, resolve the range expression against the page
count, throw `Invalid page range` when no index survives, otherwise copy the
pages at the resolved indices (ascending) into the new document. -/
def splitPdf {α : Type} (file : Option (List α)) (rangeStr : String) :
    Except PdfError (List α) :=
  match loadDocument file with
  | Except.error e => Except.error e
  | Except.ok src =>
    let totalPages : Int := (src.length : Int)
    let indices := parseRanges rangeStr totalPages
    if indices = [] then Except.error PdfError.invalidRange
    else Except.ok (indices.filterMap (fun i => src[i.toNat]?))

/-- Loop of `mergePdfs`: load each file in order and append all of its pages
to the accumulator; a load failure aborts the whole operation. -/
def mergeLoop {α : Type} (acc : List α) : List (Option (List α)) → Except PdfError (List α)
  | [] => Except.ok acc
  | f :: fs =>
    match loadDocument f with
    | Except.error e => Except.error e
    | Except.ok pages => mergeLoop (acc ++ pages) fs

/-- mergePdfs: start from an empty document and append every page of every
input file in order. -/
def mergePdfs {α : Type} (files : List (Option (List α))) : Except PdfError (List α) :=
  mergeLoop [] files

/-! ## imagesToPdf -/

/-- Input image file: MIME type plus intrinsic pixel dimensions (the
dimensions `pdfImage.scale(1)` reports after embedding). -/
structure ImageFile where
  mime : String
  width : ℚ
  height : ℚ
  deriving DecidableEq

/-- Page produced by `imagesToPdf`: `addPage([width, height])` followed by
`drawImage` of the embedded image at the origin with the same dimensions, so
the page records its media box and the image drawn full-bleed. -/
structure ImgPage where
  width : ℚ
  height : ℚ
  content : ImageFile
  deriving DecidableEq

/-- MIME dispatch of `imagesToPdf`: `image/jpeg` and `image/jpg` go through
`embedJpg`, `image/png` through `embedPng`, anything else hits `continue`. -/
def supportedMime (m : String) : Bool :=
  m == "image/jpeg" || m == "image/jpg" || m == "image/png"

/-- imagesToPdf: start from an empty document; per image, embed it when the
MIME type is supported and append one page of exactly the image's dimensions;
skip the image otherwise. -/
def imagesToPdf (images : List ImageFile) : List ImgPage :=
  images.foldl
    (fun doc img =>
      if supportedMime img.mime then doc ++ [⟨img.width, img.height, img⟩]
      else doc)
    []

/-! ## compressPdf -/

/-- Source page as PDF.js reports it (intrinsic size at scale 1). -/
structure CPage where
  width : ℚ
  height : ℚ
  deriving DecidableEq

/-- Pixel buffer obtained from `page.getViewport({scale})` plus canvas
rendering: dimensions are the intrinsic page size multiplied by the scale; the
rendered content is determined by the source page, kept here verbatim. -/
structure RasterFrame where
  width : ℚ
  height : ℚ
  page : CPage
  deriving DecidableEq

/-- renderPageToRaster: viewport of the page at the given scale. -/
def renderPage (p : CPage) (scale : ℚ) : RasterFrame :=
  { width := p.width * scale, height := p.height * scale, page := p }

/-- Output page of `compressPdf`: `addPage([viewport.width, viewport.height])`
with the encoded JPEG (of abstract type `γ`) drawn full-bleed. -/
structure OutPage (γ : Type) where
  width : ℚ
  height : ℚ
  image : γ
  deriving DecidableEq

/-- Observable events of the compression page loop: a progress-callback
invocation `onProgress(current, total)`, and the completion of all processing
of one page (render, JPEG-encode, embed, addPage, cleanup — source lines
154–186). -/
inductive CEvent
  | progress (current : Nat) (total : Nat)
  | pageDone (index : Nat)
  deriving DecidableEq

/-- Loop of `compressPdf` over the remaining pages, `i` the 1-based number of
the next page.  Per iteration the source first invokes the callback (when one
is registered), then renders the page at scale 1.5, encodes the frame to JPEG
at the given quality, and appends a page of the viewport's dimensions with
that JPEG drawn full-bleed.  `encode` abstracts
`canvas.toDataURL('image/jpeg', quality)` plus `embedJpg`.  Returns the output
pages and the event trace. -/
def compressLoop {γ : Type} (encode : RasterFrame → ℚ → γ) (quality : ℚ)
    (hasCb : Bool) (total : Nat) : List CPage → Nat → List (OutPage γ) × List CEvent
  | [], _ => ([], [])
  | p :: ps, i =>
    let viewport := renderPage p (1.5 : ℚ)
    let jpeg := encode viewport quality
    let rest := compressLoop encode quality hasCb total ps (i + 1)
    (⟨viewport.width, viewport.height, jpeg⟩ :: rest.1,
      (if hasCb then [CEvent.progress i total] else []) ++ (CEvent.pageDone i :: rest.2))

/-- compressPdf: run the page loop from page 1 over all pages of the source.
`hasCb` records whether an `onProgress` callback was registered. -/
def compressPdf {γ : Type} (encode : RasterFrame → ℚ → γ) (src : List CPage)
    (quality : ℚ) (hasCb : Bool) : List (OutPage γ) × List CEvent :=
  compressLoop encode quality hasCb src.length src 1

/-- Progress pair carried by a progress event, `none` for other events. -/
def progressOf : CEvent → Option (Nat × Nat)
  | CEvent.progress c t => some (c, t)
  | CEvent.pageDone _ => none

/-- Event trace the specification's progress protocol describes, made
explicit: for pages `i, i+1, …, i+n-1`, a progress invocation immediately
followed by the completion of that page. -/
def expectedTrace (total : Nat) : Nat → Nat → List CEvent
  | _, 0 => []
  | i, n + 1 => CEvent.progress i total :: CEvent.pageDone i :: expectedTrace total (i + 1) n

/-- Claimed ordering: every progress invocation for page `c` happens only
after page `c` has completed processing. -/
def progressAfterPageDone (tr : List CEvent) : Prop :=
  ∀ (k c t : Nat), tr[k]? = some (CEvent.progress c t) →
    ∃ j, j < k ∧ tr[j]? = some (CEvent.pageDone c)

/-- Sample images of the specification's example: a JPEG, an unsupported GIF,
a PNG, with their intrinsic pixel dimensions. -/
def jpeg1 : ImageFile := { mime := "image/jpeg", width := 800, height := 600 }

def gif1 : ImageFile := { mime := "image/gif", width := 100, height := 100 }

def png1 : ImageFile := { mime := "image/png", width := 640, height := 480 }

/-! ## Invariants of the page set -/

/-- Invariant of the accumulated page set: duplicate-free, and every member is
a zero-based index of the document. -/
def okSet (tp : Int) (s : List Int) : Prop :=
  s.Nodup ∧ ∀ x ∈ s, 0 ≤ x ∧ x < tp

theorem setAdd_okSet {tp x : Int} {s : List Int} (hs : okSet tp s)
    (hx0 : 0 ≤ x) (hx1 : x < tp) : okSet tp (setAdd s x) := by
  unfold setAdd
  by_cases hmem : x ∈ s
  · simpa [hmem] using hs
  · rw [if_neg hmem]
    refine ⟨?_, ?_⟩
    · rw [List.nodup_append]
      exact ⟨hs.1, List.nodup_singleton x, by simp [List.disjoint_singleton, hmem]⟩
    · intro y hy
      rcases List.mem_append.mp hy with h | h
      · exact hs.2 y h
      · simp only [List.mem_singleton] at h
        exact h ▸ ⟨hx0, hx1⟩

theorem rangeLoop_okSet {tp : Int} (n : Nat) : ∀ (s : List Int) (i : Int),
    okSet tp s → okSet tp (rangeLoop tp s i n) := by
  induction n with
  | zero => intro s i hs; simpa [rangeLoop] using hs
  | succ n ih =>
    intro s i hs
    show okSet tp (rangeLoop tp (if 1 ≤ i ∧ i ≤ tp then setAdd s (i - 1) else s) (i + 1) n)
    apply ih
    by_cases h : 1 ≤ i ∧ i ≤ tp
    · rw [if_pos h]; exact setAdd_okSet hs (by omega) (by omega)
    · rwa [if_neg h]

theorem addRange_okSet {tp : Int} {s : List Int} (start e : Int) (hs : okSet tp s) :
    okSet tp (addRange tp s start e) :=
  rangeLoop_okSet _ s start hs

theorem processPart_okSet {tp : Int} {s : List Int} (part : List Char)
    (hs : okSet tp s) : okSet tp (processPart tp s part) := by
  unfold processPart
  by_cases hc : part.contains '-'
  · rw [if_pos hc]
    rcases hp : (jsSplit '-' part).map (fun t => parseIntJS (jsTrim t)) with _ | ⟨a, l⟩
    · exact hs
    · rcases a with _ | a
      · exact hs
      · rcases l with _ | ⟨b, l⟩
        · exact hs
        · rcases b with _ | b
          · exact hs
          · exact addRange_okSet a b hs
  · rw [if_neg hc]
    rcases hp : parseIntJS (jsTrim part) with _ | n
    · exact hs
    · show okSet tp (if 1 ≤ n ∧ n ≤ tp then setAdd s (n - 1) else s)
      by_cases hn : 1 ≤ n ∧ n ≤ tp
      · rw [if_pos hn]; exact setAdd_okSet hs (by omega) (by omega)
      · rwa [if_neg hn]

theorem foldl_processPart_okSet (tp : Int) (parts : List (List Char)) :
    ∀ (s : List Int), okSet tp s → okSet tp (parts.foldl (processPart tp) s) := by
  induction parts with
  | nil => intro s hs; exact hs
  | cons p ps ih => intro s hs; exact ih _ (processPart_okSet p hs)

theorem parseRanges_okSet (r : String) (tp : Int) : okSet tp (parseRanges r tp) := by
  unfold parseRanges
  have h := foldl_processPart_okSet tp (jsSplit ',' r.data) [] ⟨List.nodup_nil, by simp⟩
  have hperm := List.perm_insertionSort (α := Int) (· ≤ ·)
    ((jsSplit ',' r.data).foldl (processPart tp) [])
  exact ⟨hperm.symm.nodup h.1, fun x hx => h.2 x (hperm.mem_iff.mp hx)⟩

theorem parseRanges_sorted_le (r : String) (tp : Int) :
    (parseRanges r tp).Sorted (· ≤ ·) :=
  List.sorted_insertionSort (· ≤ ·) _

/-- C1: for every range expression and every page count, the index list that
`splitPdf`'s range resolution (`parseRanges`) produces is strictly ascending,
duplicate-free, and every element is a valid zero-based page index. -/
theorem parseRanges_strictAscending_inBounds (r : String) (tp : Int) :
    (parseRanges r tp).Sorted (· < ·) ∧ (parseRanges r tp).Nodup ∧
      ∀ x ∈ parseRanges r tp, 0 ≤ x ∧ x < tp :=
  ⟨(parseRanges_sorted_le r tp).lt_of_le (parseRanges_okSet r tp).1,
    (parseRanges_okSet r tp).1, (parseRanges_okSet r tp).2⟩

/-- C2, counterexample: the specification states that `"1-3,5"` over a 10-page
document resolves to `{0,1,2,3,4}`.  The code resolves the term `1-3` to the
indices 0,1,2 and the term `5` to the index 4, so index 3 (page 4) is not a
member, and the resolved list is not `[0,1,2,3,4]`. -/
theorem parseRanges_one_three_five_counterexample :
    (3 : Int) ∉ parseRanges "1-3,5" 10 ∧ parseRanges "1-3,5" 10 ≠ [0, 1, 2, 3, 4] := by
  constructor
  · decide
  · decide

/-- C2 (amended): on a 10-page document, `"1-3,5"` resolves to the zero-based
indices `{0,1,2,4}`; `"5-2"` resolves to the empty set and makes `splitPdf`
fail with the invalid-range error; `"1, abc, 3"` resolves to `{0,2}`, the
malformed term dropped rather than raising. -/
theorem parseRanges_examples :
    parseRanges "1-3,5" 10 = [0, 1, 2, 4] ∧
    parseRanges "5-2" 10 = [] ∧
    splitPdf (some ([1, 2, 3, 4, 5, 6, 7, 8, 9, 10] : List Nat)) "5-2" =
      Except.error PdfError.invalidRange ∧
    parseRanges "1, abc, 3" 10 = [0, 2] :=
  ⟨by decide, by decide, by rfl, by decide⟩

/-- C9: a term consisting of an integer followed by trailing non-numeric
characters is accepted as that integer, because JS `parseInt` takes the
longest numeric prefix: `"3x"` over a 10-page document resolves to `{2}`. -/
theorem parseRanges_trailing_chars :
    parseIntJS "3x".data = some 3 ∧ parseRanges "3x" 10 = [2] :=
  ⟨by decide, by decide⟩

/-- C10: mergePdfs of an empty sequence of files does not fail: no file is
loaded and the result is the (serialization of the) valid zero-page
document. -/
theorem mergePdfs_nil (α : Type) :
    mergePdfs ([] : List (Option (List α))) = Except.ok [] :=
  rfl

/-! ## mergePdfs -/

theorem mergeLoop_map_some {α : Type} (files : List (List α)) :
    ∀ acc : List α, mergeLoop acc (files.map some) = Except.ok (acc ++ files.flatten) := by
  induction files with
  | nil => intro acc; simp [mergeLoop]
  | cons f fs ih =>
    intro acc
    show mergeLoop (acc ++ f) (fs.map some) = _
    rw [ih (acc ++ f)]
    simp [List.append_assoc]

/-- C5: for every ordered sequence of loadable inputs, mergePdfs succeeds
with the concatenation of all their pages in order, so the output page count
is the sum of the input page counts and both intra- and inter-document order
are preserved; in particular a 3-page A followed by a 2-page B merges to the
5 pages [A1, A2, A3, B1, B2]. -/
theorem mergePdfs_spec :
    (∀ (α : Type) (files : List (List α)),
        mergePdfs (files.map some) = Except.ok files.flatten ∧
        files.flatten.length = (files.map List.length).sum) ∧
    mergePdfs [some ["A1", "A2", "A3"], some ["B1", "B2"]] =
      Except.ok ["A1", "A2", "A3", "B1", "B2"] := by
  refine ⟨fun α files => ⟨?_, List.length_flatten files⟩, rfl⟩
  simpa [mergePdfs] using mergeLoop_map_some files []

/-! ## Error policy of splitPdf -/

/-- C3: splitPdf fails with the invalid-range error iff the resolved index
set is empty — the single validation point.  Additionally: a range term with
start > end contributes no indices (the loop runs zero times); a term whose
components fail integer parsing is dropped; a parsed value outside
[1, totalPages] is skipped by the loop iteration resp. the membership test.
All of these functions are total, so none of those cases can raise: the sole
error site is the emptiness check. -/
theorem splitPdf_error_policy {α : Type} (src : List α) (r : String) (tp : Int) :
    (splitPdf (some src) r = Except.error PdfError.invalidRange ↔
        parseRanges r (src.length : Int) = []) ∧
    (∀ (s : List Int) (start e : Int), e < start → addRange tp s start e = s) ∧
    (∀ (s : List Int) (part : List Char), part.contains '-' = false →
        parseIntJS (jsTrim part) = none → processPart tp s part = s) ∧
    (∀ (s : List Int) (part : List Char), part.contains '-' = true →
        (∀ (a b : Int) (rest : List (Option Int)),
          (jsSplit '-' part).map (fun t => parseIntJS (jsTrim t)) ≠
            some a :: some b :: rest) →
        processPart tp s part = s) ∧
    (∀ (s : List Int) (i : Int) (n : Nat), ¬ (1 ≤ i ∧ i ≤ tp) →
        rangeLoop tp s i (n + 1) = rangeLoop tp s (i + 1) n) ∧
    (∀ (s : List Int) (part : List Char) (v : Int), part.contains '-' = false →
        parseIntJS (jsTrim part) = some v → ¬ (1 ≤ v ∧ v ≤ tp) →
        processPart tp s part = s) := by
  refine ⟨?_, ?_, ?_, ?_, ?_, ?_⟩
  · have hdef : splitPdf (some src) r =
        if parseRanges r (src.length : Int) = [] then Except.error PdfError.invalidRange
        else Except.ok ((parseRanges r (src.length : Int)).filterMap
          (fun i => src[i.toNat]?)) := rfl
    by_cases h : parseRanges r (src.length : Int) = []
    · simp [hdef, h]
    · simp [hdef, h]
  · intro s start e h
    unfold addRange
    rw [show (e - start + 1).toNat = 0 from by omega]
    rfl
  · intro s part hc hp
    unfold processPart
    rw [hc]
    simp only [Bool.false_eq_true, if_false]
    rw [hp]
  · intro s part hc hmap
    unfold processPart
    rw [hc, if_pos rfl]
    rcases hp : (jsSplit '-' part).map (fun t => parseIntJS (jsTrim t)) with _ | ⟨a, l⟩
    · rfl
    · rcases a with _ | a
      · rfl
      · rcases l with _ | ⟨b, l⟩
        · rfl
        · rcases b with _ | b
          · rfl
          · exact absurd hp (hmap a b l)
  · intro s i n h
    show rangeLoop tp (if 1 ≤ i ∧ i ≤ tp then setAdd s (i - 1) else s) (i + 1) n = _
    rw [if_neg h]
  · intro s part v hc hp hv
    unfold processPart
    rw [hc]
    simp only [Bool.false_eq_true, if_false]
    rw [hp]
    show (if 1 ≤ v ∧ v ≤ tp then setAdd s (v - 1) else s) = s
    rw [if_neg hv]

/-- Witness for the error-policy theorem: a concrete 3-page document with the
empty-resolving expression `5-2`, plus concrete instances of every dropped
term kind over `totalPages = 7`. -/
theorem splitPdf_error_policy_witness :
    (splitPdf (some ([10, 20, 30] : List Nat)) "5-2" = Except.error PdfError.invalidRange ↔
        parseRanges "5-2" (([10, 20, 30] : List Nat).length : Int) = []) ∧
    addRange 7 [] 5 2 = [] ∧
    processPart 7 [] "abc".data = [] ∧
    processPart 7 [] "a-b".data = [] ∧
    rangeLoop 7 [] 9 (0 + 1) = rangeLoop 7 [] (9 + 1) 0 ∧
    processPart 7 [] "9".data = [] := by
  have h := splitPdf_error_policy ([10, 20, 30] : List Nat) "5-2" 7
  refine ⟨h.1, h.2.1 [] 5 2 (by decide), h.2.2.1 [] "abc".data (by decide) (by decide),
    h.2.2.2.1 [] "a-b".data (by decide) ?_,
    h.2.2.2.2.1 [] 9 0 (by decide),
    h.2.2.2.2.2 [] "9".data 9 (by decide) (by decide) (by decide)⟩
  intro a b rest hcontra
  rw [show (jsSplit '-' "a-b".data).map (fun t => parseIntJS (jsTrim t)) =
      ([none, none] : List (Option Int)) from by decide] at hcontra
  injection hcontra with h1 _
  exact Option.noConfusion h1

/-! ## splitPdf on a non-empty resolution -/

theorem filterMap_get_eq_map {α : Type} [Inhabited α] (src : List α) :
    ∀ (l : List Int), (∀ x ∈ l, 0 ≤ x ∧ x < (src.length : Int)) →
      l.filterMap (fun i => src[i.toNat]?) =
        l.map (fun i => src.getD i.toNat default) := by
  intro l
  induction l with
  | nil => intro _; rfl
  | cons a l ih =>
    intro hl
    have ha := hl a (List.mem_cons_self a l)
    have hlt : a.toNat < src.length := by omega
    rw [List.filterMap_cons, List.map_cons]
    simp only [List.getElem?_eq_getElem hlt]
    rw [List.getD_eq_getElem src default hlt]
    rw [ih (fun x hx => hl x (List.mem_cons_of_mem a hx))]

/-- C4: when the resolved index set is non-empty, splitPdf succeeds and its
output document consists of exactly the source pages at the resolved indices,
and those indices are strictly ascending, so the selected pages are copied in
ascending index order. -/
theorem splitPdf_selected {α : Type} [Inhabited α] (src : List α) (r : String)
    (h : parseRanges r (src.length : Int) ≠ []) :
    splitPdf (some src) r =
      Except.ok ((parseRanges r (src.length : Int)).map
        (fun i => src.getD i.toNat default)) ∧
    (parseRanges r (src.length : Int)).Sorted (· < ·) := by
  have hdef : splitPdf (some src) r =
      if parseRanges r (src.length : Int) = [] then Except.error PdfError.invalidRange
      else Except.ok ((parseRanges r (src.length : Int)).filterMap
        (fun i => src[i.toNat]?)) := rfl
  refine ⟨?_, (parseRanges_sorted_le r (src.length : Int)).lt_of_le
    (parseRanges_okSet r (src.length : Int)).1⟩
  rw [hdef, if_neg h,
    filterMap_get_eq_map src _ (parseRanges_okSet r (src.length : Int)).2]

/-- Witness: on the 10-page document with pages 1..10, the expression
`1-2,10` resolves non-emptily and the split result is exactly the 3 pages
1, 2, 10 in that order. -/
theorem splitPdf_selected_witness :
    parseRanges "1-2,10" (([1, 2, 3, 4, 5, 6, 7, 8, 9, 10] : List Nat).length : Int) ≠ [] ∧
    splitPdf (some ([1, 2, 3, 4, 5, 6, 7, 8, 9, 10] : List Nat)) "1-2,10" =
      Except.ok [1, 2, 10] := by
  refine ⟨by decide, ?_⟩
  rw [(splitPdf_selected ([1, 2, 3, 4, 5, 6, 7, 8, 9, 10] : List Nat) "1-2,10" (by decide)).1]
  rfl

/-! ## imagesToPdf properties -/

theorem imagesToPdf_foldl (images : List ImageFile) :
    ∀ acc : List ImgPage,
      images.foldl
          (fun doc img =>
            if supportedMime img.mime then doc ++ [⟨img.width, img.height, img⟩]
            else doc) acc =
        acc ++ (images.filter (fun img => supportedMime img.mime)).map
          (fun img => ⟨img.width, img.height, img⟩) := by
  induction images with
  | nil => intro acc; simp
  | cons img images ih =>
    intro acc
    rw [List.foldl_cons, List.filter_cons]
    by_cases h : supportedMime img.mime
    · simp only [h, if_pos, List.map_cons]
      rw [ih]
      simp [List.append_assoc]
    · simp only [h, Bool.false_eq_true, if_false]
      rw [ih]

/-- C6: imagesToPdf creates exactly one page per image of supported MIME type
(image/jpeg, image/jpg, image/png), in input order, each page sized to that
image's pixel dimensions with the image drawn full-bleed; other MIME types
are skipped without error, and empty or all-skipped input yields a zero-page
document rather than an error (the function is total). -/
theorem imagesToPdf_spec :
    (∀ images : List ImageFile,
        imagesToPdf images =
          (images.filter (fun img => supportedMime img.mime)).map
            (fun img => { width := img.width, height := img.height, content := img })) ∧
    imagesToPdf [] = [] ∧
    imagesToPdf [jpeg1, gif1, png1] =
      [{ width := 800, height := 600, content := jpeg1 },
        { width := 640, height := 480, content := png1 }] := by
  refine ⟨fun images => ?_, rfl, rfl⟩
  simpa using imagesToPdf_foldl images []

/-! ## compressPdf properties -/

theorem compressLoop_pages {γ : Type} (encode : RasterFrame → ℚ → γ) (q : ℚ)
    (cb : Bool) (total : Nat) :
    ∀ (ps : List CPage) (i : Nat),
      (compressLoop encode q cb total ps i).1 =
        ps.map (fun p =>
          { width := p.width * (1.5 : ℚ), height := p.height * (1.5 : ℚ),
            image := encode (renderPage p (1.5 : ℚ)) q }) := by
  intro ps
  induction ps with
  | nil => intro i; rfl
  | cons p ps ih =>
    intro i
    show ({ width := (renderPage p (1.5 : ℚ)).width,
            height := (renderPage p (1.5 : ℚ)).height,
            image := encode (renderPage p (1.5 : ℚ)) q } ::
          (compressLoop encode q cb total ps (i + 1)).1 : List (OutPage γ)) = _
    rw [ih (i + 1), List.map_cons]
    rfl

theorem compressLoop_trace {γ : Type} (encode : RasterFrame → ℚ → γ) (q : ℚ)
    (total : Nat) :
    ∀ (ps : List CPage) (i : Nat),
      (compressLoop encode q true total ps i).2 = expectedTrace total i ps.length := by
  intro ps
  induction ps with
  | nil => intro i; rfl
  | cons p ps ih =>
    intro i
    show (if true then [CEvent.progress i total] else []) ++
        (CEvent.pageDone i :: (compressLoop encode q true total ps (i + 1)).2) = _
    rw [if_pos rfl, ih (i + 1)]
    rfl

theorem expectedTrace_progress (total : Nat) :
    ∀ (n i : Nat), (expectedTrace total i n).filterMap progressOf =
      (List.range n).map (fun k => (i + k, total)) := by
  intro n
  induction n with
  | zero => intro i; rfl
  | succ n ih =>
    intro i
    show ((CEvent.progress i total :: CEvent.pageDone i ::
        expectedTrace total (i + 1) n).filterMap progressOf) = _
    rw [List.filterMap_cons, List.filterMap_cons]
    show (i, total) :: (expectedTrace total (i + 1) n).filterMap progressOf = _
    rw [ih (i + 1), List.range_succ_eq_map, List.map_cons, List.map_map]
    refine congrArg₂ _ (by simp) ?_
    apply List.map_congr_left
    intro k _
    exact congrArg (fun m => (m, total)) (by omega)

/-- C7, counterexample: the claim states that every progress invocation
occurs after the corresponding page completes processing.  On a one-page
document with a registered callback the event trace is
`[progress 1 1, pageDone 1]`: the invocation `(1, 1)` is the first event of
the trace (the source calls `onProgress(i, numPages)` at the top of the loop
iteration, before `getPage`/render), so no completion of page 1 precedes
it. -/
theorem compressPdf_progress_counterexample :
    ¬ progressAfterPageDone
        (compressPdf (fun _ _ => PUnit.unit) [{ width := 612, height := 792 }]
          (4 / 5 : ℚ) true).2 := by
  intro h
  obtain ⟨j, hj, _⟩ := h 0 1 1 rfl
  omega

/-- C7 (amended): for an N-page document with a registered callback, the
progress callback is invoked exactly N times with the sequence
(1,N), (2,N), …, (N,N) — no gaps, repeats, or out-of-order values — but each
invocation occurs at the start of the corresponding page's loop iteration,
before that page is processed, not after it completes: the trace of run `i`
is `progress i N` immediately followed by `pageDone i`. -/
theorem compressPdf_progress (γ : Type) (encode : RasterFrame → ℚ → γ)
    (src : List CPage) (q : ℚ) :
    (compressPdf encode src q true).2 = expectedTrace src.length 1 src.length ∧
    ((compressPdf encode src q true).2).filterMap progressOf =
      (List.range src.length).map (fun k => (k + 1, src.length)) := by
  have h1 := compressLoop_trace encode q src.length src 1
  refine ⟨h1, ?_⟩
  rw [show (compressPdf encode src q true).2 = expectedTrace src.length 1 src.length from h1,
    expectedTrace_progress src.length src.length 1]
  apply List.map_congr_left
  intro k _
  exact congrArg (fun m => (m, src.length)) (Nat.add_comm 1 k)

/-- C8: compressPdf renders every page at scale factor exactly 1.5, passes
the quality argument unmodified to the JPEG encoder (`encode` receives the
very rational `q` that was passed in), and returns one output page per source
page — N pages for an N-page document — each page sized to the rendered
raster's dimensions (the intrinsic page size times 1.5). -/
theorem compressPdf_pages (γ : Type) (encode : RasterFrame → ℚ → γ)
    (src : List CPage) (q : ℚ) (cb : Bool) :
    (compressPdf encode src q cb).1 =
      src.map (fun p =>
        { width := p.width * (1.5 : ℚ), height := p.height * (1.5 : ℚ),
          image := encode (renderPage p (1.5 : ℚ)) q }) ∧
    ((compressPdf encode src q cb).1).length = src.length := by
  have h := compressLoop_pages encode q cb src.length src 1
  refine ⟨h, ?_⟩
  show ((compressLoop encode q cb src.length src 1).1).length = src.length
  rw [h, List.length_map]
